import Mathlib

/-!
Verification of the ringnet peer runtime (`lib/peer.js`) against its
natural-language specification.  The JavaScript source is shallowly embedded:
connection state becomes an explicit `Conn` record, the peer instance becomes
`PeerState`, and each event handler of interest (`receive` on HELO / CONFIRM /
data frames, `broadcast`, the discovery port expansion, the close handler)
becomes a pure Lean function mirroring the source control flow.  Cryptographic
primitives (RSA verify, AES decrypt, JSON parse) are passed in as oracle
parameters, since only their success or failure steers the control flow under
scrutiny.  The companion file `lib/message.js` (the `PeerMessage` class) is not
part of the available sources; the message data model is therefore modelled
from the specification's wire-format section.
-/

namespace Ringnet

/-- Modelled from the spec: `lib/message.js` is absent from the sources.  The
spec reserves the header types HELO, TRUSTED, CONFIRM, PEERS, MESSAGE (numeric
codes) plus embedder-defined string types transported under MESSAGE. -/
inductive MsgType where
  | helo
  | trustedMsg
  | confirmMsg
  | peersMsg
  | messageMsg
  | custom (s : String)
deriving DecidableEq, Repr

/-- Modelled from the spec: wire message header
`{ type, hash, timestamp, signature?, confirm? { hash, timestamp } }`.
Timestamps are modelled as their string rendering, which is what both
comparison sites in `peer.js` reduce to (`toISOString()` / `toString()`
against the string carried in a confirm header). -/
structure MsgHeader where
  type : MsgType
  hash : String
  timestamp : String
  signature : Option String := none
  confirmOf : Option (String × String) := none
deriving DecidableEq, Repr

/-- Modelled from the spec: a wire message is a header plus a body; the body is
its canonical serialized text (ciphertext for data frames). -/
structure PeerMsg where
  header : MsgHeader
  body : String
deriving DecidableEq, Repr

/-- Per-connection mutable state hung on the websocket connection object by
`setupConnection` and the `receive` handler (`peer.js`): `trusted`,
`connected`, the `peerPublicKeySignature` recorded after a verified HELO
(absent before), the reported `originalAddress`/`originalPort`, the
`unconfirmedMessages` list and the peer's `requireConfirmation` flag.
`closedFlag` records that `connection.close()` was invoked. -/
structure Conn where
  trusted : Bool
  connected : Bool
  closedFlag : Bool
  peerPublicKeySignature : Option String
  originalAddress : Option String
  originalPort : Nat
  unconfirmedMessages : List PeerMsg
  requireConfirmation : Bool
deriving DecidableEq, Repr

/-- A row of the peer table `self.peers`: `{ connection, created, active }`
(`peer.js` line 476; the `request` member is irrelevant metadata). -/
structure PeerEntry where
  conn : Conn
  created : Nat
  active : Nat
deriving DecidableEq, Repr

/-- A discovery-queue entry `{ address, signature }`; both fields are nullable
in the source (`peer.js` constructor, lines 102-116). -/
structure Candidate where
  address : Option String
  signature : Option String
deriving DecidableEq, Repr

/-- The peer-instance fields of `peer.js` that the verified operations read
and write: own ring signature (base64), listening port, own
`requireConfirmation`, discovery `range`, the peer table and the discovery
queue. -/
structure PeerState where
  signature : String
  port : Nat
  requireConfirmation : Bool
  range : Option (Nat × Nat)
  peers : List PeerEntry
  discoveryAddresses : List Candidate
deriving DecidableEq, Repr

/-- The comparison used both by the CONFIRM intake (`peer.js` lines 819-821)
and by the retry-timer lookup (lines 994-995): hash equality and timestamp
(string) equality. -/
def msgMatches (h t : String) (m : PeerMsg) : Bool :=
  m.header.hash == h && m.header.timestamp == t

/-- Remove the first element matching `(h, t)` from a list, keeping the rest
(one `splice(i, 1)` followed by `break`). -/
def removeFirstMatch (h t : String) : List PeerMsg → List PeerMsg
  | [] => []
  | m :: rest => if msgMatches h t m then rest else m :: removeFirstMatch h t rest

/-- CONFIRM intake scan (`peer.js` lines 817-832): iterate `i` from the end of
`unconfirmedMessages` down to `0`, and on the first exact (hash, timestamp)
match splice that single entry out and break.  Scanning from the tail is
the same as scanning the reversed list from the head. -/
def confirmIntake (l : List PeerMsg) (h t : String) : List PeerMsg :=
  (removeFirstMatch h t l.reverse).reverse

/-- The CONFIRM branch of `receive` (`peer.js` lines 796-833): if this peer's
own `requireConfirmation` is false, return at once (line 797); otherwise, if
the message carries a well-formed `confirm` header, run the intake scan on the
connection's `unconfirmedMessages`. -/
def receiveConfirm (selfReq : Bool) (conn : Conn) (confirmHdr : Option (String × String)) : Conn :=
  if !selfReq then conn
  else
    match confirmHdr with
    | some (h, t) =>
      { conn with unconfirmedMessages := confirmIntake conn.unconfirmedMessages h t }
    | none => conn

/-- Count of entries matching a confirm header. -/
def matchCount (l : List PeerMsg) (h t : String) : Nat :=
  l.countP (msgMatches h t)

/-- A text frame written on a link: the header data of the sent message, and
whether its body was AES-encrypted (trusted path) or sent in the clear (HELO
path). -/
structure Frame where
  typ : MsgType
  hash : String
  timestamp : String
  encrypted : Bool
deriving DecidableEq, Repr

/-- Result of one iteration of the `broadcast` fan-out loop (`peer.js` lines
970-1067) on a single target connection: the updated connection, the frames
written on that link, and the (hash, timestamp) key of the confirmation-retry
timer scheduled, if any. -/
structure BroadcastResult where
  conn : Conn
  frames : List Frame
  retryScheduled : Option (String × String)
deriving DecidableEq, Repr

/-- One iteration of the `broadcast` loop (`peer.js` lines 970-1067) for
message `m` on connection `conn`, with `selfReq` this peer's own
`requireConfirmation` flag.  If the connection is not `connected`, nothing is
sent.  If it is trusted: a copy of `m` is made for sending (the copy
constructor of `PeerMessage` preserves the header, which the wire format
requires; `lib/message.js` is absent so this is modelled from the spec); if
`selfReq` is set and the message is not itself a CONFIRM, a 30-second retry
timer keyed by the copy's (hash, timestamp) is scheduled (lines 981-1010);
the original message object is pushed onto `unconfirmedMessages` (line 1012);
the signed, encrypted copy is written as one frame (lines 1014-1034).  If the
connection is untrusted, only a HELO may pass (lines 1044-1061); all other
messages are skipped with no state change. -/
def broadcastStep (selfReq : Bool) (conn : Conn) (m : PeerMsg) : BroadcastResult :=
  if conn.connected then
    if conn.trusted then
      { conn := { conn with unconfirmedMessages := conn.unconfirmedMessages ++ [m] }
        frames := [⟨m.header.type, m.header.hash, m.header.timestamp, true⟩]
        retryScheduled :=
          if selfReq ∧ m.header.type ≠ MsgType.confirmMsg then
            some (m.header.hash, m.header.timestamp)
          else none }
    else
      if m.header.type = MsgType.helo then
        { conn := conn
          frames := [⟨MsgType.helo, m.header.hash, m.header.timestamp, false⟩]
          retryScheduled := none }
      else ⟨conn, [], none⟩
  else ⟨conn, [], none⟩

/-- The lookup performed when the retry timer fires (`peer.js` lines 990-999):
scan the target connection's `unconfirmedMessages` at fire time for an entry
whose (hash, timestamp) equals that of the sent copy. -/
def retryFind (l : List PeerMsg) (h t : String) : Bool :=
  l.any (msgMatches h t)

/-- The retry timer body (`peer.js` lines 989-1008): if the (hash, timestamp)
of the sent copy is still found in the connection's `unconfirmedMessages` at
fire time, re-enter `broadcast` with the message; otherwise do nothing. -/
def retryFire (selfReq : Bool) (conn : Conn) (m : PeerMsg) : BroadcastResult :=
  if retryFind conn.unconfirmedMessages m.header.hash m.header.timestamp then
    broadcastStep selfReq conn m
  else ⟨conn, [], none⟩

/-- Scenario of spec §8 item 5 (confirmation suppresses retry): this peer has
`requireConfirmation = true`; it broadcasts `m` once to `conn`; the target's
CONFIRM for (hash, timestamp) of `m` is processed before the retry timer
fires; the timer then fires.  The value is the full list of frames written on
the link for this payload. -/
def confirmThenRetryFrames (conn : Conn) (m : PeerMsg) : List Frame :=
  let r1 := broadcastStep true conn m
  let c2 := receiveConfirm true r1.conn (some (m.header.hash, m.header.timestamp))
  let r2 := retryFire true c2 m
  r1.frames ++ r2.frames

/-- Outcome of the HELO branch of `receive` (`peer.js` lines 592-687): the
(possibly updated) connection, whether `connection.close()` was invoked, and
whether a TRUSTED reply was sent. -/
structure HeloOutcome where
  conn : Conn
  closed : Bool
  replySent : Bool
deriving DecidableEq, Repr

/-- The HELO branch of `receive` (`peer.js` lines 592-687).  `parsed` is the
outcome of constructing the `NodeRSA` key and base64 signature buffer from the
message body (lines 603-604); `none` models a parse exception, which is caught
and makes `receive` return with no close and no reply (lines 627-635).  On a
signature equal to the receiver's own, the connection is closed (lines
608-614).  `verify` is the `ringPublicKey.verify` oracle (line 622): when it
returns true the connection is marked trusted, the peer signature is recorded
and a TRUSTED reply is sent (lines 639-687); when it returns false the guard
at line 639 fails and the handler falls through - no close, no reply, no state
change. -/
def receiveHelo (ownSig : String) (verify : String → String → Bool)
    (conn : Conn) (parsed : Option (String × String)) : HeloOutcome :=
  match parsed with
  | none => ⟨conn, false, false⟩
  | some (pk, sig) =>
    if sig = ownSig then
      ⟨{ conn with closedFlag := true }, true, false⟩
    else if verify pk sig then
      ⟨{ conn with trusted := true, peerPublicKeySignature := some sig }, false, true⟩
    else ⟨conn, false, false⟩

/-- Character-level test for a leading IPv4-mapped prefix (the lowercase form
matched by the regex `/^::ffff:(.*)$/i` at `peer.js` lines 258, 463 and
1151-1152). -/
def startsWithFfff (s : String) : Bool :=
  s.data.take 7 == "::ffff:".data

/-- Strip a leading IPv4-mapped prefix, as the regex
`/^::ffff:(.*)$/i` does at `peer.js` lines 258, 463 and 1151-1152. -/
def stripFfff (s : String) : String :=
  if startsWithFfff s then ⟨s.data.drop 7⟩ else s

/-- Whether the address string contains a colon (`indexOf(":") > -1`,
`peer.js` line 1154). -/
def hasColon (s : String) : Bool :=
  s.data.any (fun c => c == ':')

/-- The connection state installed by `setupConnection` (`peer.js` lines
429-473) on a fresh inbound or outbound connection. -/
def initConn (remoteAddress : String) (remotePort : Nat) : Conn :=
  { trusted := false
    connected := true
    closedFlag := false
    peerPublicKeySignature := none
    originalAddress := some (stripFfff remoteAddress)
    originalPort := remotePort
    unconfirmedMessages := []
    requireConfirmation := false }

/-- `setupConnection` (`peer.js` line 476): the new connection is pushed onto
the peer table `self.peers` with `created`/`active` timestamps.  Nothing in
`peer.js` ever removes an entry from `self.peers` (no `splice`/`pop` on it
exists in the file); close events only clear the `trusted` flag. -/
def setupConnection (st : PeerState) (conn : Conn) (now : Nat) : PeerState :=
  { st with peers := st.peers ++ [⟨conn, now, now⟩] }

/-- State-level wrapper of the HELO branch: `receive` locates the peer-table
entry for the connection, refreshes its `active` timestamp (`peer.js` lines
580-590) and runs the HELO handler on the connection object; the peer table
itself gains or loses no entry. -/
def receiveHeloState (st : PeerState) (i : Nat) (verify : String → String → Bool)
    (parsed : Option (String × String)) (now : Nat) : PeerState × Option HeloOutcome :=
  match st.peers[i]? with
  | none => (st, none)
  | some e =>
    let out := receiveHelo st.signature verify e.conn parsed
    ({ st with peers := st.peers.set i { e with conn := out.conn, active := now } }, some out)

/-- Outcome of the data-frame branch of `receive` (`peer.js` lines 843-915):
the connection afterwards, whether it was closed, the (hash, timestamp) echoed
in an outgoing CONFIRM if one was queued, and the names of the events emitted
for the frame. -/
structure DataOutcome where
  conn : Conn
  closed : Bool
  confirmSent : Option (String × String)
  events : List String
deriving DecidableEq, Repr

/-- The data-frame branch of `receive` on a trusted connection (`peer.js`
lines 843-915).  `decrypt` models the AES-256-CBC decipher on the base64 body
(`none` = decryption threw, lines 859-861); `verify` is
`peerPublicKey.verify` on the plaintext (line 864; `false` raises and is
caught); `parse` is `JSON.parse` of the plaintext (line 869; `none` = parse
threw).  Every failure lands in the catch block at lines 903-914, which only
logs: the connection is untouched and stays open, and no event is emitted.
On success, a CONFIRM is queued if the connection's peer asked for
confirmations (lines 871-886), a `message` event is emitted, and a
custom-typed event is emitted for string header types (lines 888-898). -/
def receiveData (conn : Conn) (m : PeerMsg) (decrypt : String → Option String)
    (verify : String → Bool) (parse : String → Option String) : DataOutcome :=
  match decrypt m.body with
  | none => ⟨conn, false, none, []⟩
  | some plain =>
    if verify plain then
      match parse plain with
      | none => ⟨conn, false, none, []⟩
      | some _ =>
        { conn := conn
          closed := false
          confirmSent :=
            if conn.requireConfirmation then some (m.header.hash, m.header.timestamp)
            else none
          events :=
            "message" ::
              (match m.header.type with
               | MsgType.custom s => [s]
               | _ => []) }
    else ⟨conn, false, none, []⟩

/-- A record of the list returned by `getPeerList` (`peer.js` lines
1150-1162): `{ address, signature, created, active, trusted }`. -/
structure PeerRecord where
  address : String
  signature : String
  created : Nat
  active : Nat
  trusted : Bool
deriving DecidableEq, Repr

/-- Address rendering of `getPeerList` (`peer.js` lines 1151-1156): strip the
IPv4-mapped prefix, then append `:originalPort` only when the stored (raw)
`originalAddress` string contains no colon - the colon test is made on the
unstripped string in the source. -/
def peerListAddress (addr : String) (port : Nat) : String :=
  stripFfff addr ++ (if hasColon addr then "" else ":" ++ toString port)

/-- `getPeerList(signaturesToOmit)` (`peer.js` lines 1134-1168): for every
peer-table row whose connection has both a recorded `peerPublicKeySignature`
and an `originalAddress`, and whose signature is not among those to omit,
emit a record carrying the normalized address, the signature, the row's
timestamps and the connection's current `trusted` flag.  The `trusted` flag
itself is not a filter in the source. -/
def getPeerList (peers : List PeerEntry) (omitSigs : List String) : List PeerRecord :=
  match peers with
  | [] => []
  | p :: rest =>
    match p.conn.peerPublicKeySignature, p.conn.originalAddress with
    | some sig, some addr =>
      if sig ∈ omitSigs then getPeerList rest omitSigs
      else
        { address := peerListAddress addr p.conn.originalPort
          signature := sig
          created := p.created
          active := p.active
          trusted := p.conn.trusted } :: getPeerList rest omitSigs
    | _, _ => getPeerList rest omitSigs

/-- The connection close handler (`peer.js` lines 499-520): clear the trusted
flag; on an abnormal close code (anything but 1000) push
`{ address: this.originalAddress, signature: this.peerPublicKeySignature.toString(..) }`
onto the discovery queue.  When `peerPublicKeySignature` was never set (no
HELO verified on this connection), that member access is on `undefined` and
the handler throws a `TypeError`; the `none` result models that the re-enqueue
step is not total there. -/
def closeHandler (st : PeerState) (conn : Conn) (code : Nat) :
    Option (PeerState × Conn) :=
  let conn2 := { conn with trusted := false }
  if code = 1000 then some (st, conn2)
  else
    match conn.peerPublicKeySignature with
    | none => none
    | some sig =>
      some ({ st with discoveryAddresses :=
                st.discoveryAddresses ++ [⟨conn.originalAddress, some sig⟩] },
            conn2)

/-- `isOwnSignature` (`peer.js` lines 1091-1095): a null signature is never
own; otherwise compare with this peer's base64 ring signature. -/
def isOwnSignatureB (st : PeerState) : Option String → Bool
  | none => false
  | some s => s == st.signature

/-- `isConnectedTo` (`peer.js` lines 1116-1132): a candidate carrying this
peer's own signature counts as connected; otherwise scan the peer table for a
connection whose recorded `peerPublicKeySignature` equals the candidate's
signature (a null candidate signature matches nothing). -/
def isConnectedToB (st : PeerState) (c : Candidate) : Bool :=
  (c.signature == some st.signature) ||
    st.peers.any (fun p =>
      match p.conn.peerPublicKeySignature with
      | some s => some s == c.signature
      | none => false)

/-- `inDiscoveryAddresses` (`peer.js` lines 1097-1114): membership by
JSON-string equality of the whole candidate record, i.e. structural equality
here. -/
def inDiscoveryAddressesB (st : PeerState) (c : Candidate) : Bool :=
  decide (c ∈ st.discoveryAddresses)

/-- One guarded push of the port-expansion loops (`peer.js` lines 318-334 and
344-360): append the candidate to the discovery queue unless it is already
queued, already connected, or carries this peer's own signature. -/
def pushCandidate (st : PeerState) (c : Candidate) : PeerState :=
  if inDiscoveryAddressesB st c || isConnectedToB st c || isOwnSignatureB st c.signature then
    st
  else { st with discoveryAddresses := st.discoveryAddresses ++ [c] }

/-- The port list used by the expansion (`peer.js` lines 307-308 and 338): the
full inclusive range when a two-element range with `lo <= hi` is configured,
otherwise just this peer's own listening port. -/
def mkRangePorts : Option (Nat × Nat) → Nat → List Nat
  | some (lo, hi), selfPort =>
    if lo ≤ hi then (List.range (hi + 1 - lo)).map (fun k => lo + k) else [selfPort]
  | none, selfPort => [selfPort]

/-- `url.format` of the candidate address built by the expansion (`peer.js`
lines 293-299 and 315, 341): protocol, slashes, hostname and the chosen
port. -/
def fmtAddr (proto host : String) (p : Nat) : String :=
  proto ++ "//" ++ host ++ ":" ++ toString p

/-- The candidate built for one expanded port (`peer.js` lines 315-316 and
341-342): the formatted address and the dequeued candidate's signature. -/
def portCand (proto host : String) (sig : Option String) (p : Nat) : Candidate :=
  ⟨some (fmtAddr proto host p), sig⟩

/-- The expansion loop over a list of ports (`peer.js` lines 310-335 and
337-361): for each port the dequeued candidate's host is re-enqueued with
that port and the candidate's signature, subject to the queued / connected /
own-signature checks made against the live (growing) queue. -/
def expandFold (proto host : String) (sig : Option String)
    (st : PeerState) (ports : List Nat) : PeerState :=
  ports.foldl (fun s p => pushCandidate s (portCand proto host sig p)) st

/-- The port-less branch of `discover` (`peer.js` lines 305-370): run the
expansion loop over the configured ports, call `next()` and return without
dialing.  The second component is the address dialed: always `none` on this
path. -/
def expandPortless (st : PeerState) (proto host : String) (sig : Option String) :
    PeerState × Option String :=
  (expandFold proto host sig st (mkRangePorts st.range st.port), none)

/-- A fresh, untrusted sample connection used by concrete witnesses and
counterexamples. -/
def sampleConn : Conn :=
  { trusted := false
    connected := true
    closedFlag := false
    peerPublicKeySignature := none
    originalAddress := some "10.0.0.5"
    originalPort := 31000
    unconfirmedMessages := []
    requireConfirmation := false }

/-- A sample application message. -/
def wMsgA : PeerMsg := ⟨⟨MsgType.messageMsg, "wh", "wt", none, none⟩, "bodyA"⟩

/-- A second sample application message with a different (hash, timestamp). -/
def wMsgB : PeerMsg := ⟨⟨MsgType.messageMsg, "xh", "xt", none, none⟩, "bodyB"⟩

/-- A sample HELO message. -/
def heloM : PeerMsg := ⟨⟨MsgType.helo, "hh", "ht", none, none⟩, "helo"⟩

/-- A trusted sample connection whose unconfirmed list holds `wMsgB` then
`wMsgA`. -/
def wConn : Conn :=
  { sampleConn with trusted := true, unconfirmedMessages := [wMsgB, wMsgA] }

/-- A trusted sample connection whose unconfirmed list holds no match for
(wh, wt). -/
def wConnB : Conn :=
  { sampleConn with trusted := true, unconfirmedMessages := [wMsgB] }

/-- A trusted sample connection whose unconfirmed list holds the same
(hash, timestamp) twice, as produced by broadcasting the same message object
twice to the same connection. -/
def dupConn : Conn :=
  { sampleConn with trusted := true, unconfirmedMessages := [wMsgA, wMsgA] }

theorem removeFirstMatch_of_no_match (h t : String) :
    ∀ (l : List PeerMsg), (∀ m ∈ l, msgMatches h t m = false) →
      removeFirstMatch h t l = l := by
  intro l
  induction l with
  | nil => intro _; rfl
  | cons m rest ih =>
    intro hall
    have hm := hall m (List.mem_cons_self m rest)
    simp only [removeFirstMatch, hm]
    simp only [Bool.false_eq_true, if_false]
    rw [ih (fun x hx => hall x (List.mem_cons_of_mem m hx))]

theorem countP_removeFirstMatch (h t : String) :
    ∀ (l : List PeerMsg),
      (removeFirstMatch h t l).countP (msgMatches h t) =
        l.countP (msgMatches h t) - (if l.any (msgMatches h t) then 1 else 0) := by
  intro l
  induction l with
  | nil => rfl
  | cons m rest ih =>
    by_cases hm : msgMatches h t m = true
    · simp [removeFirstMatch, hm, List.countP_cons, List.any_cons]
    · have hm' : msgMatches h t m = false := by
        cases hq : msgMatches h t m
        · rfl
        · exact absurd hq hm
      simp only [removeFirstMatch, hm', Bool.false_eq_true, if_false]
      simp only [List.countP_cons, hm', List.any_cons, Bool.false_or]
      simp only [ih]
      rfl

theorem no_match_of_countP_zero (h t : String) (l : List PeerMsg)
    (hz : l.countP (msgMatches h t) = 0) :
    ∀ m ∈ l, msgMatches h t m = false := by
  intro m hm
  have := List.countP_eq_zero.mp hz m hm
  cases hq : msgMatches h t m
  · rfl
  · exact absurd hq this

theorem confirmIntake_countP (h t : String) (l : List PeerMsg) :
    (confirmIntake l h t).countP (msgMatches h t) =
      l.countP (msgMatches h t) - (if l.any (msgMatches h t) then 1 else 0) := by
  unfold confirmIntake
  rw [List.countP_reverse, countP_removeFirstMatch]
  rw [List.countP_reverse, List.any_reverse]

theorem confirmIntake_of_no_match (h t : String) (l : List PeerMsg)
    (hall : ∀ m ∈ l, msgMatches h t m = false) :
    confirmIntake l h t = l := by
  unfold confirmIntake
  rw [removeFirstMatch_of_no_match h t l.reverse
    (fun m hm => hall m (List.mem_reverse.mp hm))]
  exact List.reverse_reverse l

theorem confirmIntake_append_match (h t : String) (l : List PeerMsg)
    (m : PeerMsg) (hm : msgMatches h t m = true) :
    confirmIntake (l ++ [m]) h t = l := by
  unfold confirmIntake
  rw [List.reverse_append]
  simp only [List.reverse_cons, List.reverse_nil, List.nil_append, List.singleton_append]
  simp only [removeFirstMatch, hm, if_true]
  exact List.reverse_reverse l


/-- Claim C1, counterexample: an incoming HELO whose ring-signature
verification returns false (and whose signature is not the receiver's own)
does NOT close the connection - `receiveHelo` leaves the connection exactly
as it was, open and untrusted, contradicting the claim that the connection is
closed and not left open in an untrusted state. -/
theorem c1_counterexample :
    (receiveHelo "OWNSIG" (fun _ _ => false) sampleConn (some ("PEERKEY", "PEERSIG"))).closed
        = false ∧
      (receiveHelo "OWNSIG" (fun _ _ => false) sampleConn
          (some ("PEERKEY", "PEERSIG"))).conn = sampleConn ∧
      sampleConn.closedFlag = false := by
  constructor
  · rfl
  · exact ⟨rfl, rfl⟩

/-- Claim C1, amended: for every incoming HELO whose ring-signature
verification returns false (and whose signature is not the receiver's own),
the receive operation sends no reply and does not mark the connection
trusted, but it does not close the connection either: the connection is left
exactly as it was, open in an untrusted state. -/
theorem c1_amended (ownSig : String) (verify : String → String → Bool)
    (conn : Conn) (pk sig : String)
    (hns : sig ≠ ownSig) (hv : verify pk sig = false) :
    receiveHelo ownSig verify conn (some (pk, sig)) = ⟨conn, false, false⟩ := by
  simp only [receiveHelo]
  rw [if_neg hns, hv]
  simp

/-- Witness for C1's amended theorem at a concrete input. -/
theorem c1_witness :
    ("PEERSIG" ≠ "OWNSIG") ∧ ((fun _ _ => false) "PEERKEY" "PEERSIG" = false) ∧
      receiveHelo "OWNSIG" (fun _ _ => false) sampleConn (some ("PEERKEY", "PEERSIG"))
        = ⟨sampleConn, false, false⟩ :=
  ⟨by decide, rfl,
    c1_amended "OWNSIG" (fun _ _ => false) sampleConn "PEERKEY" "PEERSIG" (by decide) rfl⟩

/-- Claim C5, counterexample: CONFIRM intake is not idempotent when the
unconfirmed list carries the same (hash, timestamp) twice (as happens when
the same message object is broadcast twice to the same connection): the
second receipt of the same CONFIRM removes a second entry. -/
theorem c5_counterexample :
    receiveConfirm true (receiveConfirm true dupConn (some ("wh", "wt"))) (some ("wh", "wt"))
      ≠ receiveConfirm true dupConn (some ("wh", "wt")) := by
  decide

/-- Claim C5, amended: the CONFIRM intake scans the connection's unconfirmed
list from the tail and removes the most recently appended entry whose
(hash, timestamp) matches the CONFIRM's confirm header exactly; a CONFIRM
matching no entry leaves the list unchanged; and when at most one entry
matches, receiving the same CONFIRM a second time leaves the unconfirmed
list unchanged (idempotence after the first receipt). -/
theorem c5_amended (conn : Conn) (h t : String) (l : List PeerMsg) (m : PeerMsg) :
    (msgMatches h t m = true → confirmIntake (l ++ [m]) h t = l) ∧
      ((∀ e ∈ conn.unconfirmedMessages, msgMatches h t e = false) →
        receiveConfirm true conn (some (h, t)) = conn) ∧
      (matchCount conn.unconfirmedMessages h t ≤ 1 →
        receiveConfirm true (receiveConfirm true conn (some (h, t))) (some (h, t)) =
          receiveConfirm true conn (some (h, t))) := by
  have key : ∀ c : Conn, (∀ e ∈ c.unconfirmedMessages, msgMatches h t e = false) →
      receiveConfirm true c (some (h, t)) = c := by
    intro c hall
    show { c with unconfirmedMessages := confirmIntake c.unconfirmedMessages h t } = c
    rw [confirmIntake_of_no_match h t _ hall]
  refine ⟨fun hm => confirmIntake_append_match h t l m hm, key conn, fun hcnt => ?_⟩
  have hstep : receiveConfirm true conn (some (h, t)) =
      { conn with unconfirmedMessages := confirmIntake conn.unconfirmedMessages h t } := rfl
  rw [hstep]
  apply key
  apply no_match_of_countP_zero
  rw [confirmIntake_countP]
  by_cases hany : conn.unconfirmedMessages.any (msgMatches h t) = true
  · have h1 : 0 < conn.unconfirmedMessages.countP (msgMatches h t) := by
      obtain ⟨x, hx, hpx⟩ := List.any_eq_true.mp hany
      exact List.countP_pos_iff.mpr ⟨x, hx, hpx⟩
    rw [if_pos hany]
    have := hcnt
    unfold matchCount at this
    omega
  · have h0 : conn.unconfirmedMessages.countP (msgMatches h t) = 0 := by
      by_contra hne
      obtain ⟨x, hx, hpx⟩ := List.countP_pos_iff.mp (Nat.pos_of_ne_zero hne)
      exact hany (List.any_eq_true.mpr ⟨x, hx, hpx⟩)
    rw [if_neg hany, h0]

/-- Witness for C5's amended theorem at concrete inputs. -/
theorem c5_witness :
    (msgMatches "wh" "wt" wMsgA = true ∧ confirmIntake ([wMsgB] ++ [wMsgA]) "wh" "wt" = [wMsgB]) ∧
      ((∀ e ∈ wConnB.unconfirmedMessages, msgMatches "wh" "wt" e = false) ∧
        receiveConfirm true wConnB (some ("wh", "wt")) = wConnB) ∧
      (matchCount wConn.unconfirmedMessages "wh" "wt" ≤ 1 ∧
        receiveConfirm true (receiveConfirm true wConn (some ("wh", "wt"))) (some ("wh", "wt")) =
          receiveConfirm true wConn (some ("wh", "wt"))) :=
  ⟨⟨by decide, (c5_amended wConn "wh" "wt" [wMsgB] wMsgA).1 (by decide)⟩,
    ⟨by decide, (c5_amended wConnB "wh" "wt" [] wMsgA).2.1 (by decide)⟩,
    ⟨by decide, (c5_amended wConn "wh" "wt" [] wMsgA).2.2 (by decide)⟩⟩

/-- Claim C9: when this peer's own `requireConfirmation` flag is false, an
incoming CONFIRM is discarded immediately - the receive operation returns the
connection unchanged, without scanning or modifying its unconfirmed list. -/
theorem c9_confirm_gate (conn : Conn) (confirmHdr : Option (String × String)) :
    receiveConfirm false conn confirmHdr = conn := rfl

/-- Claim C6: for every data frame received on a trusted connection, if
decryption fails, or the body signature fails to verify, or the plaintext
fails to deserialize, the frame is dropped without closing the connection:
the connection is returned unchanged, no CONFIRM is queued, and no event is
emitted for that frame. -/
theorem c6_session_failure_drops (conn : Conn) (m : PeerMsg)
    (decrypt : String → Option String) (verify : String → Bool)
    (parse : String → Option String)
    (hfail : decrypt m.body = none ∨
      (∃ p, decrypt m.body = some p ∧ verify p = false) ∨
      (∃ p, decrypt m.body = some p ∧ parse p = none)) :
    receiveData conn m decrypt verify parse = ⟨conn, false, none, []⟩ := by
  rcases hfail with h1 | ⟨p, hp, hv⟩ | ⟨p, hp, hparse⟩
  · simp [receiveData, h1]
  · simp [receiveData, hp, hv]
  · by_cases hv : verify p = true
    · simp [receiveData, hp, hv, hparse]
    · have hv' : verify p = false := by
        cases hq : verify p
        · rfl
        · exact absurd hq hv
      simp [receiveData, hp, hv']

/-- Witness for C6 at a concrete input: decryption fails. -/
theorem c6_witness :
    ((fun _ : String => (none : Option String)) wMsgA.body = none) ∧
      receiveData wConn wMsgA (fun _ => none) (fun _ => true) (fun s => some s)
        = ⟨wConn, false, none, []⟩ :=
  ⟨rfl, c6_session_failure_drops wConn wMsgA (fun _ => none) (fun _ => true)
    (fun s => some s) (Or.inl rfl)⟩

/-- Claim C7: for every connection that is not trusted, the broadcast loop
sends nothing on it unless the message's header type is HELO, and skips it
silently (connection state untouched, no retry scheduled); a HELO on an
untrusted connected target is let through as one unencrypted frame. -/
theorem c7_untrusted_only_helo (selfReq : Bool) (conn : Conn) (m : PeerMsg)
    (htr : conn.trusted = false) :
    (m.header.type ≠ MsgType.helo → broadcastStep selfReq conn m = ⟨conn, [], none⟩) ∧
      (m.header.type = MsgType.helo → conn.connected = true →
        broadcastStep selfReq conn m =
          ⟨conn, [⟨MsgType.helo, m.header.hash, m.header.timestamp, false⟩], none⟩) := by
  constructor
  · intro hne
    unfold broadcastStep
    by_cases hc : conn.connected = true
    · rw [if_pos hc, htr]
      simp [hne]
    · have hc' : conn.connected = false := by
        cases hq : conn.connected
        · rfl
        · exact absurd hq hc
      rw [hc']
      simp
  · intro hhelo hc
    unfold broadcastStep
    rw [if_pos hc, htr]
    simp [hhelo]

/-- Witness for C7 at concrete inputs: a MESSAGE frame is skipped on an
untrusted connection; a HELO frame passes. -/
theorem c7_witness :
    sampleConn.trusted = false ∧
      (wMsgA.header.type ≠ MsgType.helo ∧
        broadcastStep true sampleConn wMsgA = ⟨sampleConn, [], none⟩) ∧
      (heloM.header.type = MsgType.helo ∧ sampleConn.connected = true ∧
        broadcastStep true sampleConn heloM =
          ⟨sampleConn, [⟨MsgType.helo, heloM.header.hash, heloM.header.timestamp, false⟩], none⟩) :=
  ⟨rfl,
    ⟨by decide, (c7_untrusted_only_helo true sampleConn wMsgA rfl).1 (by decide)⟩,
    ⟨rfl, rfl, (c7_untrusted_only_helo true sampleConn heloM rfl).2 rfl rfl⟩⟩

/-- A peer-table row whose connection carries a recorded signature but whose
`trusted` flag is false (as after a verified HELO followed by an error or
close event, which clear `trusted` but never remove the signature or the
row). -/
def untrustedEntry : PeerEntry :=
  { conn := { sampleConn with peerPublicKeySignature := some "SIGA", trusted := false }
    created := 3
    active := 4 }

/-- Claim C2, counterexample: `getPeerList` returns an entry built from a
connection whose `trusted` flag is false - the source filters only on the
presence of `peerPublicKeySignature` and `originalAddress`, not on trust. -/
theorem c2_counterexample :
    (getPeerList [untrustedEntry] []).length = 1 ∧
      (∀ r ∈ getPeerList [untrustedEntry] [], r.trusted = false) ∧
      untrustedEntry.conn.trusted = false := by
  refine ⟨rfl, ?_, rfl⟩
  decide

/-- Claim C2, amended: every entry returned by `getPeerList(omit)` has a
signature not in `omit` and is built from a peer-table row whose connection
has that signature recorded and an address on file; the entry's `trusted`
field reports that connection's current trusted flag, but the connection need
not be trusted at the time of the call. -/
theorem c2_amended (peers : List PeerEntry) (omitSigs : List String)
    (r : PeerRecord) (hr : r ∈ getPeerList peers omitSigs) :
    r.signature ∉ omitSigs ∧
      ∃ p ∈ peers, p.conn.peerPublicKeySignature = some r.signature ∧
        r.trusted = p.conn.trusted ∧
        ∃ a, p.conn.originalAddress = some a ∧
          r.address = peerListAddress a p.conn.originalPort := by
  induction peers with
  | nil => cases hr
  | cons p rest ih =>
    cases hsig : p.conn.peerPublicKeySignature with
    | none =>
      have hred : getPeerList (p :: rest) omitSigs = getPeerList rest omitSigs := by
        simp [getPeerList, hsig]
      rw [hred] at hr
      obtain ⟨hnot, q, hq, hrest⟩ := ih hr
      exact ⟨hnot, q, List.mem_cons_of_mem p hq, hrest⟩
    | some sig =>
      cases haddr : p.conn.originalAddress with
      | none =>
        have hred : getPeerList (p :: rest) omitSigs = getPeerList rest omitSigs := by
          simp [getPeerList, hsig, haddr]
        rw [hred] at hr
        obtain ⟨hnot, q, hq, hrest⟩ := ih hr
        exact ⟨hnot, q, List.mem_cons_of_mem p hq, hrest⟩
      | some a =>
        by_cases hmem : sig ∈ omitSigs
        · have hred : getPeerList (p :: rest) omitSigs = getPeerList rest omitSigs := by
            simp [getPeerList, hsig, haddr, hmem]
          rw [hred] at hr
          obtain ⟨hnot, q, hq, hrest⟩ := ih hr
          exact ⟨hnot, q, List.mem_cons_of_mem p hq, hrest⟩
        · have hred : getPeerList (p :: rest) omitSigs =
              { address := peerListAddress a p.conn.originalPort
                signature := sig
                created := p.created
                active := p.active
                trusted := p.conn.trusted } :: getPeerList rest omitSigs := by
            simp [getPeerList, hsig, haddr, hmem]
          rw [hred] at hr
          rcases List.mem_cons.mp hr with heq | htail
          · subst heq
            exact ⟨hmem, p, List.mem_cons_self p rest, hsig, rfl, a, haddr, rfl⟩
          · obtain ⟨hnot, q, hq, hrest⟩ := ih htail
            exact ⟨hnot, q, List.mem_cons_of_mem p hq, hrest⟩

/-- Witness for C2's amended theorem at a concrete input. -/
theorem c2_witness :
    ({ address := "10.0.0.5:31000", signature := "SIGA", created := 3, active := 4,
        trusted := false } : PeerRecord) ∈ getPeerList [untrustedEntry] ["OTHER"] ∧
      ("SIGA" ∉ ["OTHER"] ∧
        ∃ p ∈ [untrustedEntry], p.conn.peerPublicKeySignature = some "SIGA" ∧
          (false = p.conn.trusted) ∧
          ∃ a, p.conn.originalAddress = some a ∧
            ("10.0.0.5:31000" : String) = peerListAddress a p.conn.originalPort) := by
  have hmem :
      ({ address := "10.0.0.5:31000", signature := "SIGA", created := 3,
         active := 4, trusted := false } : PeerRecord)
        ∈ getPeerList [untrustedEntry] ["OTHER"] := by
    decide
  exact ⟨hmem, c2_amended [untrustedEntry] ["OTHER"] _ hmem⟩

/-- The peer under test in the self-connect scenario. -/
def c3Base : PeerState :=
  { signature := "SELF"
    port := 26781
    requireConfirmation := true
    range := some (26780, 26790)
    peers := []
    discoveryAddresses := [] }

/-- The self-connect scenario after the connection is set up: the peer table
has gained the row pushed by `setupConnection`. -/
def c3AfterSetup : PeerState := setupConnection c3Base (initConn "127.0.0.1" 50000) 0

/-- The self-connect scenario after the peer's own HELO comes back and is
processed by `receive`. -/
def c3Out : PeerState × Option HeloOutcome :=
  receiveHeloState c3AfterSetup 0 (fun _ _ => true) (some ("PK", "SELF")) 1

/-- Claim C3, counterexample: in the self-connect scenario the connection is
closed, but the peer table `self.peers` does NOT remain of size 0 - the row
pushed by `setupConnection` is never removed (no code in `peer.js` ever
splices `self.peers`). -/
theorem c3_counterexample :
    (c3Out.2.map HeloOutcome.closed = some true) ∧ c3Out.1.peers.length ≠ 0 := by
  constructor
  · rfl
  · decide

/-- Claim C3, amended: on receiving a HELO whose signature equals the peer's
own ring signature, `receive` closes the connection without recording a peer
signature on it, and the peer table keeps its size (the entry pushed by
`setupConnection` stays, so in the self-connect scenario the table has size
1, not 0); however the closed connection never gains a
`peerPublicKeySignature`, so `getPeerList()` returns no entry for it. -/
theorem c3_amended (st : PeerState) (i : Nat) (verify : String → String → Bool)
    (pk : String) (now : Nat) (hi : i < st.peers.length) :
    ((receiveHeloState st i verify (some (pk, st.signature)) now).2.map
        HeloOutcome.closed = some true) ∧
      (receiveHeloState st i verify (some (pk, st.signature)) now).1.peers.length
        = st.peers.length ∧
      ((receiveHeloState st i verify (some (pk, st.signature)) now).2.map
          (fun o => o.conn.peerPublicKeySignature) =
        (st.peers[i]?).map (fun e => e.conn.peerPublicKeySignature)) ∧
      getPeerList c3Out.1.peers [] = [] := by
  have hg : st.peers[i]? = some st.peers[i] := List.getElem?_eq_getElem hi
  refine ⟨?_, ?_, ?_, by decide⟩
  · simp [receiveHeloState, hg, receiveHelo]
  · simp [receiveHeloState, hg, receiveHelo]
  · simp [receiveHeloState, hg, receiveHelo]

/-- Witness for C3's amended theorem at the concrete scenario input. -/
theorem c3_witness :
    0 < c3AfterSetup.peers.length ∧
      ((receiveHeloState c3AfterSetup 0 (fun _ _ => true)
          (some ("PK", c3AfterSetup.signature)) 1).2.map HeloOutcome.closed = some true) ∧
      (receiveHeloState c3AfterSetup 0 (fun _ _ => true)
          (some ("PK", c3AfterSetup.signature)) 1).1.peers.length
        = c3AfterSetup.peers.length ∧
      getPeerList c3Out.1.peers [] = [] := by
  have h := c3_amended c3AfterSetup 0 (fun _ _ => true) "PK" 1 (by decide)
  exact ⟨by decide, h.1, h.2.1, h.2.2.2⟩

/-- Claim C10: the close handler's re-enqueue on abnormal close (code other
than 1000) is defined exactly when the connection carries a
`peerPublicKeySignature` - i.e. when a HELO from the peer was previously
verified on it (which is what records that field).  With the field present it
appends `{ address, signature }` to the discovery queue; with the field
absent the access throws and the re-enqueue step is not total. -/
theorem c10_close_requeue (st : PeerState) (conn : Conn) (code : Nat)
    (hc : code ≠ 1000) :
    ((closeHandler st conn code).isSome ↔ conn.peerPublicKeySignature.isSome) ∧
      (∀ sig, conn.peerPublicKeySignature = some sig →
        closeHandler st conn code =
          some ({ st with discoveryAddresses :=
                    st.discoveryAddresses ++ [⟨conn.originalAddress, some sig⟩] },
                { conn with trusted := false })) ∧
      (conn.peerPublicKeySignature = none → closeHandler st conn code = none) ∧
      (∀ (ownSig : String) (verify : String → String → Bool) (c : Conn) (pk s : String),
        s ≠ ownSig → verify pk s = true →
          (receiveHelo ownSig verify c (some (pk, s))).conn.peerPublicKeySignature
            = some s) := by
  refine ⟨?_, ?_, ?_, ?_⟩
  · cases hsig : conn.peerPublicKeySignature with
    | none => simp [closeHandler, hc, hsig]
    | some sig => simp [closeHandler, hc, hsig]
  · intro sig hsig
    simp [closeHandler, hc, hsig]
  · intro hsig
    simp [closeHandler, hc, hsig]
  · intro ownSig verify c pk s hns hv
    simp only [receiveHelo]
    rw [if_neg hns, hv]
    simp

/-- Witness for C10 at concrete inputs: a connection without a verified HELO
makes the abnormal-close re-enqueue undefined; one with a recorded signature
re-enqueues it. -/
theorem c10_witness :
    ((1006 : Nat) ≠ 1000) ∧
      closeHandler c3Base sampleConn 1006 = none ∧
      closeHandler c3Base untrustedEntry.conn 1006 =
        some ({ c3Base with discoveryAddresses :=
                  c3Base.discoveryAddresses ++
                    [⟨untrustedEntry.conn.originalAddress, some "SIGA"⟩] },
              { untrustedEntry.conn with trusted := false }) :=
  ⟨by decide,
    (c10_close_requeue c3Base sampleConn 1006 (by decide)).2.2.1 rfl,
    (c10_close_requeue c3Base untrustedEntry.conn 1006 (by decide)).2.1 "SIGA" rfl⟩

/-- Claim C4: with the sending peer's `requireConfirmation` true and a
non-CONFIRM message broadcast to a trusted connected target, (i) a retry is
scheduled keyed by the message's (hash, timestamp); (ii) at fire time the
retry rebroadcasts (writes frames) if and only if that (hash, timestamp) is
still present in the target connection's unconfirmed list, read at fire time;
(iii) if the peer's CONFIRM is processed within the window, exactly one
frame is written on the link for that payload. -/
theorem c4_confirmation_retry (conn : Conn) (m : PeerMsg)
    (hconn : conn.connected = true) (htr : conn.trusted = true)
    (hty : m.header.type ≠ MsgType.confirmMsg)
    (hno : ∀ e ∈ conn.unconfirmedMessages,
      msgMatches m.header.hash m.header.timestamp e = false) :
    (broadcastStep true conn m).retryScheduled = some (m.header.hash, m.header.timestamp) ∧
      (∀ c2 : Conn, c2.connected = true → c2.trusted = true →
        ((retryFire true c2 m).frames ≠ [] ↔
          ∃ e ∈ c2.unconfirmedMessages,
            msgMatches m.header.hash m.header.timestamp e = true)) ∧
      confirmThenRetryFrames conn m =
        [⟨m.header.type, m.header.hash, m.header.timestamp, true⟩] := by
  have hmm : msgMatches m.header.hash m.header.timestamp m = true := by
    simp [msgMatches]
  have h1 : broadcastStep true conn m =
      { conn := { conn with unconfirmedMessages := conn.unconfirmedMessages ++ [m] }
        frames := [⟨m.header.type, m.header.hash, m.header.timestamp, true⟩]
        retryScheduled := some (m.header.hash, m.header.timestamp) } := by
    simp [broadcastStep, hconn, htr, hty]
  have h3 : retryFind conn.unconfirmedMessages m.header.hash m.header.timestamp = false := by
    unfold retryFind
    cases hq : conn.unconfirmedMessages.any (msgMatches m.header.hash m.header.timestamp)
    · rfl
    · obtain ⟨x, hx, hpx⟩ := List.any_eq_true.mp hq
      rw [hno x hx] at hpx
      exact absurd hpx (by simp)
  refine ⟨by rw [h1], ?_, ?_⟩
  · intro c2 hc2 ht2
    by_cases hfind : retryFind c2.unconfirmedMessages m.header.hash m.header.timestamp = true
    · have hfr : (retryFire true c2 m).frames =
          [⟨m.header.type, m.header.hash, m.header.timestamp, true⟩] := by
        unfold retryFire
        rw [if_pos hfind]
        simp [broadcastStep, hc2, ht2]
      constructor
      · intro _
        exact List.any_eq_true.mp hfind
      · intro _
        rw [hfr]
        simp
    · have hfind' : retryFind c2.unconfirmedMessages m.header.hash m.header.timestamp
          = false := by
        cases hq : retryFind c2.unconfirmedMessages m.header.hash m.header.timestamp
        · rfl
        · exact absurd hq hfind
      have hfr : (retryFire true c2 m).frames = [] := by
        unfold retryFire
        rw [hfind']
        simp
      constructor
      · intro hne
        exact absurd hfr hne
      · intro hex
        exact absurd (List.any_eq_true.mpr hex) hfind
  · show (broadcastStep true conn m).frames ++
      (retryFire true (receiveConfirm true (broadcastStep true conn m).conn
        (some (m.header.hash, m.header.timestamp))) m).frames = _
    rw [h1]
    show [⟨m.header.type, m.header.hash, m.header.timestamp, true⟩] ++
      (retryFire true (receiveConfirm true
        { conn with unconfirmedMessages := conn.unconfirmedMessages ++ [m] }
        (some (m.header.hash, m.header.timestamp))) m).frames = _
    have h2 : receiveConfirm true
        { conn with unconfirmedMessages := conn.unconfirmedMessages ++ [m] }
        (some (m.header.hash, m.header.timestamp)) = conn := by
      simp [receiveConfirm, confirmIntake_append_match _ _ _ _ hmm]
    rw [h2]
    have hfr : (retryFire true conn m).frames = [] := by
      unfold retryFire
      rw [h3]
      simp
    rw [hfr]
    simp

/-- Witness for C4 at concrete inputs: the target's unconfirmed list holds no
prior entry for the payload's (hash, timestamp). -/
theorem c4_witness :
    (wConnB.connected = true ∧ wConnB.trusted = true ∧
      wMsgA.header.type ≠ MsgType.confirmMsg ∧
      ∀ e ∈ wConnB.unconfirmedMessages,
        msgMatches wMsgA.header.hash wMsgA.header.timestamp e = false) ∧
      (broadcastStep true wConnB wMsgA).retryScheduled
        = some (wMsgA.header.hash, wMsgA.header.timestamp) ∧
      confirmThenRetryFrames wConnB wMsgA =
        [⟨wMsgA.header.type, wMsgA.header.hash, wMsgA.header.timestamp, true⟩] :=
  ⟨⟨rfl, rfl, by decide, by decide⟩,
    (c4_confirmation_retry wConnB wMsgA rfl rfl (by decide) (by decide)).1,
    (c4_confirmation_retry wConnB wMsgA rfl rfl (by decide) (by decide)).2.2⟩

theorem pushCandidate_fields (st : PeerState) (c : Candidate) :
    (pushCandidate st c).signature = st.signature ∧
      (pushCandidate st c).peers = st.peers ∧
      (pushCandidate st c).port = st.port ∧
      (pushCandidate st c).range = st.range := by
  unfold pushCandidate
  split
  · exact ⟨rfl, rfl, rfl, rfl⟩
  · exact ⟨rfl, rfl, rfl, rfl⟩

theorem isConnectedToB_congr (st st2 : PeerState) (c : Candidate)
    (hs : st.signature = st2.signature) (hp : st.peers = st2.peers) :
    isConnectedToB st c = isConnectedToB st2 c := by
  unfold isConnectedToB
  rw [hs, hp]

theorem isOwnSignatureB_congr (st st2 : PeerState) (s : Option String)
    (hs : st.signature = st2.signature) :
    isOwnSignatureB st s = isOwnSignatureB st2 s := by
  cases s with
  | none => rfl
  | some x =>
    unfold isOwnSignatureB
    rw [hs]

theorem pushCandidate_queue (st : PeerState) (c : Candidate) :
    ∃ rest, (pushCandidate st c).discoveryAddresses = st.discoveryAddresses ++ rest := by
  unfold pushCandidate
  split
  · exact ⟨[], (List.append_nil _).symm⟩
  · exact ⟨[c], rfl⟩

theorem pushCandidate_cases (st : PeerState) (c : Candidate) :
    (pushCandidate st c = st ∧
        (inDiscoveryAddressesB st c || isConnectedToB st c ||
          isOwnSignatureB st c.signature) = true) ∨
      (pushCandidate st c =
          { st with discoveryAddresses := st.discoveryAddresses ++ [c] } ∧
        inDiscoveryAddressesB st c = false ∧ isConnectedToB st c = false ∧
        isOwnSignatureB st c.signature = false) := by
  by_cases hcond : (inDiscoveryAddressesB st c || isConnectedToB st c ||
      isOwnSignatureB st c.signature) = true
  · left
    refine ⟨?_, hcond⟩
    unfold pushCandidate
    rw [if_pos hcond]
  · right
    have hfalse : (inDiscoveryAddressesB st c || isConnectedToB st c ||
        isOwnSignatureB st c.signature) = false := by
      cases hq : (inDiscoveryAddressesB st c || isConnectedToB st c ||
          isOwnSignatureB st c.signature)
      · rfl
      · exact absurd hq hcond
    have hparts := hfalse
    simp only [Bool.or_eq_false_iff] at hparts
    refine ⟨?_, hparts.1.1, hparts.1.2, hparts.2⟩
    unfold pushCandidate
    rw [if_neg hcond]

theorem expandFold_queue_extends (proto host : String) (sig : Option String) :
    ∀ (ports : List Nat) (st : PeerState),
      ∃ rest, (expandFold proto host sig st ports).discoveryAddresses =
        st.discoveryAddresses ++ rest := by
  intro ports
  induction ports with
  | nil => intro st; exact ⟨[], (List.append_nil _).symm⟩
  | cons p ps ih =>
    intro st
    obtain ⟨r1, h1⟩ := pushCandidate_queue st (portCand proto host sig p)
    obtain ⟨r2, h2⟩ := ih (pushCandidate st (portCand proto host sig p))
    refine ⟨r1 ++ r2, ?_⟩
    have hfold : expandFold proto host sig st (p :: ps) =
        expandFold proto host sig (pushCandidate st (portCand proto host sig p)) ps := rfl
    rw [hfold, h2, h1, List.append_assoc]

theorem expandFold_mono (proto host : String) (sig : Option String)
    (ports : List Nat) (st : PeerState) (c : Candidate)
    (hc : c ∈ st.discoveryAddresses) :
    c ∈ (expandFold proto host sig st ports).discoveryAddresses := by
  obtain ⟨rest, hrest⟩ := expandFold_queue_extends proto host sig ports st
  rw [hrest]
  exact List.mem_append_left _ hc

theorem expandFold_mem (proto host : String) (sig : Option String) :
    ∀ (ports : List Nat) (st : PeerState) (c : Candidate),
      c ∈ (expandFold proto host sig st ports).discoveryAddresses →
        c ∈ st.discoveryAddresses ∨
          (c.signature = sig ∧
            (∃ p ∈ ports, c.address = some (fmtAddr proto host p)) ∧
            c ∉ st.discoveryAddresses ∧ isConnectedToB st c = false ∧
            isOwnSignatureB st c.signature = false) := by
  intro ports
  induction ports with
  | nil => intro st c hc; exact Or.inl hc
  | cons p ps ih =>
    intro st c hc
    have hc' : c ∈ (expandFold proto host sig
        (pushCandidate st (portCand proto host sig p)) ps).discoveryAddresses := hc
    have hsg : st.signature = (pushCandidate st (portCand proto host sig p)).signature :=
      (pushCandidate_fields st (portCand proto host sig p)).1.symm
    have hpr : st.peers = (pushCandidate st (portCand proto host sig p)).peers :=
      (pushCandidate_fields st (portCand proto host sig p)).2.1.symm
    rcases pushCandidate_cases st (portCand proto host sig p) with
      ⟨heq, _⟩ | ⟨heq, hq0, hconn0, hown0⟩
    · rw [heq] at hc'
      rcases ih st c hc' with hin | ⟨h1, ⟨q, hq, h2⟩, h3, h4, h5⟩
      · exact Or.inl hin
      · exact Or.inr ⟨h1, ⟨q, List.mem_cons_of_mem p hq, h2⟩, h3, h4, h5⟩
    · rw [heq] at hc'
      rcases ih _ c hc' with hin | ⟨h1, ⟨q, hq, h2⟩, h3, h4, h5⟩
      · rcases List.mem_append.mp hin with hold | hnew
        · exact Or.inl hold
        · have hceq : c = portCand proto host sig p := List.mem_singleton.mp hnew
          subst hceq
          refine Or.inr ⟨rfl, ⟨p, List.mem_cons_self p ps, rfl⟩, ?_, hconn0, hown0⟩
          exact of_decide_eq_false hq0
      · have h3' : c ∉ st.discoveryAddresses := by
          intro hmem
          exact h3 (List.mem_append_left _ hmem)
        have h4' : isConnectedToB st c = false := by
          rw [isConnectedToB_congr st _ c hsg hpr, ← heq] at *
          exact h4
        have h5' : isOwnSignatureB st c.signature = false := by
          rw [isOwnSignatureB_congr st _ c.signature hsg, ← heq] at *
          exact h5
        exact Or.inr ⟨h1, ⟨q, List.mem_cons_of_mem p hq, h2⟩, h3', h4', h5'⟩

theorem expandFold_cover (proto host : String) (sig : Option String) :
    ∀ (ports : List Nat) (st : PeerState) (p : Nat), p ∈ ports →
      portCand proto host sig p ∈
          (expandFold proto host sig st ports).discoveryAddresses ∨
        isConnectedToB st (portCand proto host sig p) = true ∨
        isOwnSignatureB st sig = true := by
  intro ports
  induction ports with
  | nil => intro st p hp; cases hp
  | cons q ps ih =>
    intro st p hp
    have hsg : st.signature = (pushCandidate st (portCand proto host sig q)).signature :=
      (pushCandidate_fields st (portCand proto host sig q)).1.symm
    have hpr : st.peers = (pushCandidate st (portCand proto host sig q)).peers :=
      (pushCandidate_fields st (portCand proto host sig q)).2.1.symm
    rcases List.mem_cons.mp hp with heqp | htail
    · subst heqp
      rcases pushCandidate_cases st (portCand proto host sig p) with
        ⟨heq, hcond⟩ | ⟨heq, _, _, _⟩
      · simp only [Bool.or_eq_true] at hcond
        rcases hcond with (hin | hconn) | hown
        · have hmem : portCand proto host sig p ∈ st.discoveryAddresses :=
            of_decide_eq_true hin
          have : portCand proto host sig p ∈
              (pushCandidate st (portCand proto host sig p)).discoveryAddresses := by
            rw [heq]
            exact hmem
          exact Or.inl (expandFold_mono proto host sig ps _ _ this)
        · exact Or.inr (Or.inl hconn)
        · exact Or.inr (Or.inr hown)
      · have : portCand proto host sig p ∈
            (pushCandidate st (portCand proto host sig p)).discoveryAddresses := by
          rw [heq]
          exact List.mem_append_right _ (List.mem_singleton.mpr rfl)
        exact Or.inl (expandFold_mono proto host sig ps _ _ this)
    · rcases ih (pushCandidate st (portCand proto host sig q)) p htail with h | h | h
      · exact Or.inl h
      · right; left
        rw [isConnectedToB_congr st _ (portCand proto host sig p) hsg hpr]
        exact h
      · right; right
        rw [isOwnSignatureB_congr st _ sig hsg]
        exact h

/-- Claim C8: for a dequeued discovery candidate with no port, the port-less
branch (i) never dials and hands control to the next queue head; (ii) uses
exactly the ports `lo..hi` when a range with `lo <= hi` is configured and the
peer's own port when none is; (iii) only ever appends to the queue; (iv)
every appended candidate carries the dequeued candidate's signature and the
host formatted with one of those ports, and was not already queued, not
already connected and not the peer's own; (v) for every port of the list,
its candidate ends up in the queue unless it is skipped as connected or as
the peer's own signature. -/
theorem c8_port_expansion (st : PeerState) (proto host : String)
    (sig : Option String) (lo hi : Nat) :
    (expandPortless st proto host sig).2 = none ∧
      (st.range = some (lo, hi) → lo ≤ hi →
        mkRangePorts st.range st.port = (List.range (hi + 1 - lo)).map (fun k => lo + k)) ∧
      (st.range = none → mkRangePorts st.range st.port = [st.port]) ∧
      (∃ rest, (expandPortless st proto host sig).1.discoveryAddresses =
        st.discoveryAddresses ++ rest) ∧
      (∀ c ∈ (expandPortless st proto host sig).1.discoveryAddresses,
        c ∉ st.discoveryAddresses →
          c.signature = sig ∧
            (∃ p ∈ mkRangePorts st.range st.port,
              c.address = some (fmtAddr proto host p)) ∧
            isConnectedToB st c = false ∧ isOwnSignatureB st c.signature = false) ∧
      (∀ p ∈ mkRangePorts st.range st.port,
        portCand proto host sig p ∈
            (expandPortless st proto host sig).1.discoveryAddresses ∨
          isConnectedToB st (portCand proto host sig p) = true ∨
          isOwnSignatureB st sig = true) := by
  refine ⟨rfl, ?_, ?_, ?_, ?_, ?_⟩
  · intro hr hle
    rw [hr]
    simp [mkRangePorts, hle]
  · intro hr
    rw [hr]
    rfl
  · exact expandFold_queue_extends proto host sig (mkRangePorts st.range st.port) st
  · intro c hc hnot
    rcases expandFold_mem proto host sig (mkRangePorts st.range st.port) st c hc with
      hin | ⟨h1, h2, _, h4, h5⟩
    · exact absurd hin hnot
    · exact ⟨h1, h2, h4, h5⟩
  · intro p hp
    exact expandFold_cover proto host sig (mkRangePorts st.range st.port) st p hp

/-- The peer state of the C8 witness: a configured range 26780-26782 and an
empty queue. -/
def stW : PeerState :=
  { signature := "ME"
    port := 26781
    requireConfirmation := true
    range := some (26780, 26782)
    peers := []
    discoveryAddresses := [] }

/-- Witness for C8 at concrete inputs. -/
theorem c8_witness :
    (stW.range = some (26780, 26782) ∧ 26780 ≤ 26782 ∧
      mkRangePorts stW.range stW.port =
        (List.range (26782 + 1 - 26780)).map (fun k => 26780 + k)) ∧
      (expandPortless stW "wss:" "example.com" (some "S")).2 = none ∧
      (26780 ∈ mkRangePorts stW.range stW.port ∧
        (portCand "wss:" "example.com" (some "S") 26780 ∈
            (expandPortless stW "wss:" "example.com" (some "S")).1.discoveryAddresses ∨
          isConnectedToB stW (portCand "wss:" "example.com" (some "S") 26780) = true ∨
          isOwnSignatureB stW (some "S") = true)) :=
  ⟨⟨rfl, by decide,
      (c8_port_expansion stW "wss:" "example.com" (some "S") 26780 26782).2.1 rfl (by decide)⟩,
    (c8_port_expansion stW "wss:" "example.com" (some "S") 26780 26782).1,
    ⟨by decide,
      (c8_port_expansion stW "wss:" "example.com" (some "S") 26780 26782).2.2.2.2.2
        26780 (by decide)⟩⟩

end Ringnet
